import Mathlib

/-!
Verification of the git-gandalf pre-commit review script.

The program is a single JavaScript file.  We give a shallow embedding:
JavaScript strings are modelled as lists of Unicode characters
(`Str := List Char`), buffers as a byte length paired with their decoded
text, fallible code returns `Option` or `Except`, and the stdin event
handlers become explicit state-passing functions.  Every definition is
translated from the source file; deviations forced by the model (ASCII
case folding, lone UTF-16 surrogates, floating-point number formatting)
are noted in comments next to the definition and are not relied on by
any theorem.
-/

namespace GitGandalf

/-- JavaScript strings, modelled as lists of characters. -/
abbrev Str := List Char

/-! ## Generic string helpers (JS `String.prototype` operations) -/

/-- Does `s` start with `pat`?  (JS `String.prototype.startsWith`.) -/
def startsW : Str → Str → Bool
  | [], _ => true
  | _ :: _, [] => false
  | p :: ps, c :: cs => p = c && startsW ps cs

/-- Case-insensitive variant of `startsW`, for the `/i` regex flag.
JS canonicalizes with full Unicode `toUpperCase`; we fold with ASCII
`Char.toLower`, which agrees on every pattern used by the program. -/
def ciStartsW : Str → Str → Bool
  | [], _ => true
  | _ :: _, [] => false
  | p :: ps, c :: cs => p.toLower = c.toLower && ciStartsW ps cs

/-- Index of the first occurrence of `pat` in `s` (JS `indexOf` on
strings, `none` standing for `-1`). -/
def findSeq (pat : Str) : Str → Option Nat
  | [] => if startsW pat [] then some 0 else none
  | c :: cs =>
      if startsW pat (c :: cs) then some 0
      else (findSeq pat cs).map (fun i => i + 1)

/-- Case-insensitive first occurrence, for `/pat/gi` regex scanning. -/
def findCISeq (pat : Str) : Str → Option Nat
  | [] => if ciStartsW pat [] then some 0 else none
  | c :: cs =>
      if ciStartsW pat (c :: cs) then some 0
      else (findCISeq pat cs).map (fun i => i + 1)

/-- JS `String.prototype.includes`. -/
def containsSeq (pat s : Str) : Bool := (findSeq pat s).isSome

/-- JS `String.prototype.indexOf` with a one-character needle. -/
def firstIdxChar (c : Char) (s : Str) : Option Nat := findSeq [c] s

/-- JS `String.prototype.lastIndexOf` with a one-character needle. -/
def lastIdxChar (c : Char) (s : Str) : Option Nat :=
  (findSeq [c] s.reverse).map (fun i => s.length - 1 - i)

/-- JS `String.prototype.substring`: clamps both indices to the string
length and swaps them when `a > b`. -/
def jsSubstring (s : Str) (a b : Nat) : Str :=
  let a2 := min a s.length
  let b2 := min b s.length
  ((s.drop (min a2 b2)).take (max a2 b2 - min a2 b2))

/-- Fueled scanner behind `repAll`; each step consumes at least one
input character, so `length + 1` fuel always suffices. -/
def repAllAux (pat rep : Str) : Nat → Str → Str
  | 0, s => s
  | _ + 1, [] => []
  | fuel + 1, c :: cs =>
      if startsW pat (c :: cs) then
        rep ++ repAllAux pat rep fuel (cs.drop (pat.length - 1))
      else
        c :: repAllAux pat rep fuel cs

/-- JS `String.prototype.replace` with a global plain-text pattern:
replaces every non-overlapping occurrence, scanning left to right and
resuming after each replacement. -/
def repAll (pat rep : Str) (s : Str) : Str := repAllAux pat rep (s.length + 1) s

/-- Code points treated as whitespace by JS `String.prototype.trim`
(ECMAScript WhiteSpace and LineTerminator sets). -/
def jsWsCodes : List Nat :=
  [9, 10, 11, 12, 13, 32, 160, 0x1680, 0x2000, 0x2001, 0x2002, 0x2003,
   0x2004, 0x2005, 0x2006, 0x2007, 0x2008, 0x2009, 0x200a, 0x2028,
   0x2029, 0x202f, 0x205f, 0x3000, 0xfeff]

/-- Is `c` JS trim-whitespace? -/
def isJsWs (c : Char) : Bool := jsWsCodes.contains c.toNat

/-- JS `String.prototype.trim`. -/
def trimSeq (s : Str) : Str :=
  ((s.dropWhile isJsWs).reverse.dropWhile isJsWs).reverse

/-- JS `String.prototype.toUpperCase`, ASCII case folding (the program
only compares the result against the ASCII words LOW/MEDIUM/HIGH). -/
def upperSeq (s : Str) : Str := s.map Char.toUpper

/-- Decimal digit character, for rendering numbers (`48 + n` is the
code of `0`). -/
def digitChar (n : Nat) : Char := Char.ofNat (48 + n)

/-- Fueled decimal rendering helper. -/
def natDigitsAux : Nat → Nat → Str
  | 0, _ => []
  | fuel + 1, n =>
      if n < 10 then [digitChar n]
      else natDigitsAux fuel (n / 10) ++ [digitChar (n % 10)]

/-- Decimal rendering of a natural number, as produced by a JS template
literal for a non-negative integer (an HTTP status code). -/
def natDigits (n : Nat) : Str := natDigitsAux (n + 1) n

/-! ## JSON values

`JSON.parse` can return `null`, booleans, numbers, strings, arrays and
objects.  Numbers carry their source lexeme: no claim depends on
floating-point rounding or re-formatting, only on whether a value is a
number at all (and on whether it is zero, for JS truthiness). -/

/-- A JavaScript value produced by `JSON.parse`. -/
inductive Json where
  | null
  | bool (b : Bool)
  | num (lex : Str)
  | str (s : Str)
  | arr (elems : List Json)
  | obj (fields : List (Str × Json))

/-! ## JSON.parse -/

/-- Whitespace accepted between JSON tokens (RFC 8259: space, tab,
line feed, carriage return). -/
def isJsonWs (c : Char) : Bool := c = ' ' || c = '\t' || c = '\n' || c = '\r'

/-- Skip inter-token JSON whitespace. -/
def skipWs (s : Str) : Str := s.dropWhile isJsonWs

/-- Value of one hexadecimal digit. -/
def hexVal (c : Char) : Option Nat :=
  if '0' ≤ c ∧ c ≤ '9' then some (c.toNat - 48)
  else if 'a' ≤ c ∧ c ≤ 'f' then some (c.toNat - 87)
  else if 'A' ≤ c ∧ c ≤ 'F' then some (c.toNat - 55)
  else none

/-- Body of a JSON string literal, after the opening quote; returns the
decoded characters and the text after the closing quote.  Escapes follow
RFC 8259; raw control characters are a syntax error, as in `JSON.parse`.
JS strings are UTF-16 and may hold lone surrogates, which `Char` cannot;
a lone surrogate decodes to U+FFFD here (no claim involves surrogates). -/
def parseStringBodyAux : Nat → Str → Option (Str × Str)
  | 0, _ => none
  | _ + 1, [] => none
  | fuel + 1, c :: cs =>
    if c = '"' then some ([], cs)
    else if c = '\\' then
      match cs with
      | [] => none
      | e :: cs2 =>
        if e = '"' ∨ e = '\\' ∨ e = '/' then
          match parseStringBodyAux fuel cs2 with
          | some (out, rest) => some (e :: out, rest)
          | none => none
        else if e = 'b' then
          match parseStringBodyAux fuel cs2 with
          | some (out, rest) => some ('\x08' :: out, rest)
          | none => none
        else if e = 'f' then
          match parseStringBodyAux fuel cs2 with
          | some (out, rest) => some ('\x0c' :: out, rest)
          | none => none
        else if e = 'n' then
          match parseStringBodyAux fuel cs2 with
          | some (out, rest) => some ('\n' :: out, rest)
          | none => none
        else if e = 'r' then
          match parseStringBodyAux fuel cs2 with
          | some (out, rest) => some ('\r' :: out, rest)
          | none => none
        else if e = 't' then
          match parseStringBodyAux fuel cs2 with
          | some (out, rest) => some ('\t' :: out, rest)
          | none => none
        else if e = 'u' then
          match cs2 with
          | a :: b :: c3 :: d :: cs3 =>
            match hexVal a, hexVal b, hexVal c3, hexVal d with
            | some va, some vb, some vc, some vd =>
              let n := ((va * 16 + vb) * 16 + vc) * 16 + vd
              if 0xd800 ≤ n ∧ n ≤ 0xdbff then
                match cs3 with
                | bs :: u2 :: a2 :: b2 :: c2 :: d2 :: cs5 =>
                  match hexVal a2, hexVal b2, hexVal c2, hexVal d2 with
                  | some wa, some wb, some wc, some wd =>
                    let m := ((wa * 16 + wb) * 16 + wc) * 16 + wd
                    if bs = '\\' ∧ u2 = 'u' ∧ 0xdc00 ≤ m ∧ m ≤ 0xdfff then
                      match parseStringBodyAux fuel cs5 with
                      | some (out, rest) =>
                          some (Char.ofNat
                            (0x10000 + (n - 0xd800) * 0x400 + (m - 0xdc00)) :: out, rest)
                      | none => none
                    else
                      match parseStringBodyAux fuel cs3 with
                      | some (out, rest) => some ('\uFFFD' :: out, rest)
                      | none => none
                  | _, _, _, _ =>
                      match parseStringBodyAux fuel cs3 with
                      | some (out, rest) => some ('\uFFFD' :: out, rest)
                      | none => none
                | _ =>
                    match parseStringBodyAux fuel cs3 with
                    | some (out, rest) => some ('\uFFFD' :: out, rest)
                    | none => none
              else if 0xdc00 ≤ n ∧ n ≤ 0xdfff then
                match parseStringBodyAux fuel cs3 with
                | some (out, rest) => some ('\uFFFD' :: out, rest)
                | none => none
              else
                match parseStringBodyAux fuel cs3 with
                | some (out, rest) => some (Char.ofNat n :: out, rest)
                | none => none
            | _, _, _, _ => none
          | _ => none
        else none
    else if c.toNat < 32 then none
    else
      match parseStringBodyAux fuel cs with
      | some (out, rest) => some (c :: out, rest)
      | none => none

/-- Body of a JSON string literal (fueled; one fuel unit per decoded
character, so `length + 1` always suffices). -/
def parseStringBody (s : Str) : Option (Str × Str) :=
  parseStringBodyAux (s.length + 1) s

/-- Longest digit span at the front of `s`, and the rest. -/
def digitSpan (s : Str) : Str × Str :=
  (s.takeWhile Char.isDigit, s.dropWhile Char.isDigit)

/-- Integer part of a JSON number: `0`, or a nonzero digit followed by
digits (leading zeros are a syntax error). -/
def parseIntPart : Str → Option (Str × Str)
  | [] => none
  | c :: cs =>
      if c = '0' then some ([c], cs)
      else if c.isDigit then
        let sp := digitSpan cs
        some (c :: sp.1, sp.2)
      else none

/-- Optional fraction part of a JSON number. -/
def parseFracPart (s : Str) : Option (Str × Str) :=
  match s with
  | '.' :: cs =>
      let sp := digitSpan cs
      if sp.1 = [] then none else some ('.' :: sp.1, sp.2)
  | _ => some ([], s)

/-- Optional exponent part of a JSON number. -/
def parseExpPart (s : Str) : Option (Str × Str) :=
  match s with
  | [] => some ([], [])
  | e :: cs =>
      if e = 'e' ∨ e = 'E' then
        match cs with
        | [] => none
        | sgn :: cs2 =>
            if sgn = '+' ∨ sgn = '-' then
              let sp := digitSpan cs2
              if sp.1 = [] then none else some (e :: sgn :: sp.1, sp.2)
            else
              let sp := digitSpan cs
              if sp.1 = [] then none else some (e :: sp.1, sp.2)
      else some ([], e :: cs)

/-- A JSON number token; returns its source lexeme and the rest. -/
def parseNumber (s : Str) : Option (Str × Str) :=
  let split : Str × Str :=
    match s with
    | '-' :: cs => (['-'], cs)
    | _ => ([], s)
  match parseIntPart split.2 with
  | none => none
  | some (ip, s2) =>
    match parseFracPart s2 with
    | none => none
    | some (fp, s3) =>
      match parseExpPart s3 with
      | none => none
      | some (ep, s4) => some (split.1 ++ ip ++ fp ++ ep, s4)

mutual

/-- One JSON value (fueled recursion over nesting depth; every level of
nesting consumes at least one input character, so `length + 1` fuel is
always enough). -/
def parseValue : Nat → Str → Option (Json × Str)
  | 0, _ => none
  | fuel + 1, s =>
    match skipWs s with
    | [] => none
    | c :: cs =>
      if c = 'n' then
        if startsW "ull".data cs then some (Json.null, cs.drop 3) else none
      else if c = 't' then
        if startsW "rue".data cs then some (Json.bool true, cs.drop 3) else none
      else if c = 'f' then
        if startsW "alse".data cs then some (Json.bool false, cs.drop 4) else none
      else if c = '"' then
        match parseStringBody cs with
        | some (out, rest) => some (Json.str out, rest)
        | none => none
      else if c = '[' then
        match skipWs cs with
        | ']' :: rest => some (Json.arr [], rest)
        | s2 =>
          match parseElems fuel s2 with
          | some (es, rest) => some (Json.arr es, rest)
          | none => none
      else if c = '\x7b' then
        match skipWs cs with
        | '\x7d' :: rest => some (Json.obj [], rest)
        | s2 =>
          match parseMembers fuel s2 with
          | some (ms, rest) => some (Json.obj ms, rest)
          | none => none
      else if c = '-' ∨ c.isDigit then
        match parseNumber (c :: cs) with
        | some (lex, rest) => some (Json.num lex, rest)
        | none => none
      else none

/-- Comma-separated JSON array elements, up to and including `]`. -/
def parseElems : Nat → Str → Option (List Json × Str)
  | 0, _ => none
  | fuel + 1, s =>
    match parseValue fuel s with
    | none => none
    | some (v, r1) =>
      match skipWs r1 with
      | ',' :: r2 =>
        match parseElems fuel r2 with
        | some (vs, rest) => some (v :: vs, rest)
        | none => none
      | ']' :: r2 => some ([v], r2)
      | _ => none

/-- Comma-separated JSON object members, up to and including the
closing brace.  Later duplicate keys overwrite earlier ones in JS; the
field list keeps source order and lookup takes the last match. -/
def parseMembers : Nat → Str → Option (List (Str × Json) × Str)
  | 0, _ => none
  | fuel + 1, s =>
    match skipWs s with
    | '"' :: cs =>
      match parseStringBody cs with
      | none => none
      | some (k, r1) =>
        match skipWs r1 with
        | ':' :: r2 =>
          match parseValue fuel r2 with
          | none => none
          | some (v, r3) =>
            match skipWs r3 with
            | ',' :: r4 =>
              match parseMembers fuel r4 with
              | some (ms, rest) => some ((k, v) :: ms, rest)
              | none => none
            | '\x7d' :: r4 => some ([(k, v)], r4)
            | _ => none
        | _ => none
    | _ => none

end

/-- JS `JSON.parse`: one JSON value spanning the whole input (modulo
surrounding whitespace); anything else is a syntax error (`none`). -/
def jsonParse (s : Str) : Option Json :=
  match parseValue (s.length + 1) s with
  | some (v, rest) => if skipWs rest = [] then some v else none
  | none => none

/-! ## JSON.stringify (for the round-trip property) -/

/-- How `JSON.stringify` renders one character inside a string literal:
quote, backslash and control characters are escaped, everything else is
emitted as-is. -/
def encodeChar (c : Char) : Str :=
  if c = '"' then ['\\', '"']
  else if c = '\\' then ['\\', '\\']
  else if c = '\x08' then ['\\', 'b']
  else if c = '\t' then ['\\', 't']
  else if c = '\n' then ['\\', 'n']
  else if c = '\x0c' then ['\\', 'f']
  else if c = '\r' then ['\\', 'r']
  else if c.toNat < 32 then
    ['\\', 'u', '0', '0',
     (if c.toNat / 16 < 10 then Char.ofNat (48 + c.toNat / 16) else Char.ofNat (87 + c.toNat / 16)),
     (if c.toNat % 16 < 10 then Char.ofNat (48 + c.toNat % 16) else Char.ofNat (87 + c.toNat % 16))]
  else [c]

/-- String-literal body rendering under `JSON.stringify`. -/
def encodeChars : Str → Str
  | [] => []
  | c :: cs => encodeChar c ++ encodeChars cs

/-- A full JSON string literal under `JSON.stringify`. -/
def renderStr (s : Str) : Str := '"' :: (encodeChars s ++ ['"'])

/-! ## JS value coercions -/

mutual

/-- JS `String(x)` coercion of a parsed JSON value.  A number renders
via JS float formatting, which we represent by its source lexeme; no
claim depends on numeric re-formatting. -/
def jsToString : Json → Str
  | Json.null => "null".data
  | Json.bool true => "true".data
  | Json.bool false => "false".data
  | Json.num lex => lex
  | Json.str s => s
  | Json.arr es => arrJoin es
  | Json.obj _ => "[object Object]".data

/-- JS `Array.prototype.join(",")` over JSON values: `null` elements
render as the empty string, everything else via `String(x)`. -/
def arrJoin : List Json → Str
  | [] => []
  | [j] =>
      match j with
      | Json.null => []
      | jj => jsToString jj
  | j :: rest =>
      (match j with
       | Json.null => ([] : Str)
       | jj => jsToString jj) ++ ',' :: arrJoin rest

end

/-- Last field bound to key `k` (later duplicate keys overwrite earlier
ones when `JSON.parse` builds the object). -/
def findLastField (k : Str) : List (Str × Json) → Option Json
  | [] => none
  | kv :: rest =>
      match findLastField k rest with
      | some r => some r
      | none => if kv.1 = k then some kv.2 else none

/-- JS property access `x.k` for `x` produced by `JSON.parse`, `none`
standing for `undefined`.  Access on `null` throws and is handled
separately by the caller; access on other primitives and arrays yields
`undefined` for the keys this program reads. -/
def jsGet : Json → Str → Option Json
  | Json.obj fields, k => findLastField k fields
  | _, _ => none

/-- Is the numeric lexeme a representation of zero?  (Every digit of
the mantissa is `0`.)  JS additionally underflows tiny magnitudes such
as `1e-400` to zero; that case is not modelled — downstream, falsy and
truthy numbers produce the same validation error. -/
def zeroLex (lex : Str) : Bool :=
  (lex.takeWhile (fun c => !(c == 'e' || c == 'E'))).all
    (fun c => !c.isDigit || c == '0')

/-- JS truthiness of a parsed JSON value (`!x` in the source). -/
def jsFalsy : Json → Bool
  | Json.null => true
  | Json.bool b => !b
  | Json.num lex => zeroLex lex
  | Json.str s => s.isEmpty
  | Json.arr _ => false
  | Json.obj _ => false

/-- Truthiness of a possibly-`undefined` property value. -/
def falsyOpt : Option Json → Bool
  | none => true
  | some j => jsFalsy j

/-- `typeof x === "string"` on a possibly-`undefined` property value. -/
def isStringOpt : Option Json → Bool
  | some (Json.str _) => true
  | _ => false

/-! ## ResponseNormalizer ("the Bouncer") -/

/-- A single-quote character (code 39), used inside error messages. -/
def sq : Char := Char.ofNat 39

/-- Message thrown when `JSON.parse` fails. -/
def msgInvalidJson : Str := "LLM returned invalid JSON syntax.".data

/-- Message thrown when the `risk` field is falsy or not a string. -/
def msgMissingRisk : Str :=
  "Missing ".data ++ [sq] ++ "risk".data ++ [sq] ++ " field.".data

/-- Message thrown when `risk` is a string outside the enum; it embeds
the offending raw value. -/
def invalidRiskMsg (v : Str) : Str :=
  "Invalid risk value: ".data ++ [sq] ++ v ++ [sq] ++
    ". Must be LOW, MEDIUM, or HIGH.".data

/-- Message of the TypeError raised by reading `data.risk` when the
parsed reply is JSON `null`. -/
def msgNullRead : Str :=
  "Cannot read properties of null (reading ".data ++ [sq] ++ "risk".data ++
    [sq] ++ ")".data

/-- Opening reasoning marker matched by the strip regex. -/
def thinkOpen : Str := "<think>".data

/-- Closing reasoning marker matched by the strip regex. -/
def thinkClose : Str := "</think>".data

/-- Language-tagged markdown fence token. -/
def fenceJson : Str := "```json".data

/-- Bare markdown fence token. -/
def fence3 : Str := "```".data

/-- One global pass of `/<think>[\s\S]*?<\/think>/gi`: repeatedly find
the first (case-insensitive) opening marker, lazily match up to the
first closing marker after it, delete the span, and resume after it.
If the first opening marker has no closing marker after it, nothing
later can match and the text is returned unchanged. -/
def stripThinkAux : Nat → Str → Str
  | 0, s => s
  | fuel + 1, s =>
    match findCISeq thinkOpen s with
    | none => s
    | some i =>
      match findCISeq thinkClose (s.drop (i + 7)) with
      | none => s
      | some j =>
          s.take i ++ stripThinkAux fuel ((s.drop (i + 7)).drop (j + 8))

/-- Reasoning-block removal; each removal deletes at least the two
markers, so `length + 1` fuel always suffices. -/
def stripThink (s : Str) : Str := stripThinkAux (s.length + 1) s

/-- Errors thrown by `normalizeResponse`: the explicit validation
`throw new Error(...)` sites, and the TypeError JS raises when the
parsed reply is `null` and `data.risk` is read. -/
inductive NormError where
  | validation (msg : Str)
  | typeError (msg : Str)
deriving DecidableEq

/-- The canonical validated decision record. -/
structure Decision where
  risk : Str
  issues : List Str
  summary : Str
deriving DecidableEq

/-- The accepted risk enum, upper-case. -/
def validRisks : List Str := ["LOW".data, "MEDIUM".data, "HIGH".data]

/-- Text-recovery pipeline of `normalizeResponse`: strip reasoning
blocks, strip markdown fences, trim, then slice from the first `\x7b`
to the last `\x7d` when both are present. -/
def cleanPipeline (rawText : Str) : Str :=
  let t1 := stripThink rawText
  let t2 := trimSeq (repAll fence3 [] (repAll fenceJson [] t1))
  match firstIdxChar '\x7b' t2, lastIdxChar '\x7d' t2 with
  | some i, some j => jsSubstring t2 i (j + 1)
  | _, _ => t2

/-- The ResponseNormalizer: recover a JSON object from the raw model
reply, validate `risk` strictly, and normalize `issues` and `summary`
leniently. -/
def normalizeResponse (rawText : Str) : Except NormError Decision :=
  let cleanText := cleanPipeline rawText
  match jsonParse cleanText with
  | none => Except.error (NormError.validation msgInvalidJson)
  | some Json.null => Except.error (NormError.typeError msgNullRead)
  | some data =>
      let riskV := jsGet data "risk".data
      if falsyOpt riskV || !(isStringOpt riskV) then
        Except.error (NormError.validation msgMissingRisk)
      else
        match riskV with
        | some (Json.str r) =>
            let risk := upperSeq r
            if risk ∈ validRisks then
              let issues : List Str :=
                match jsGet data "issues".data with
                | some (Json.arr es) => es.map jsToString
                | some (Json.str s1) => [s1]
                | _ => []
              let summary : Str :=
                match jsGet data "summary".data with
                | some (Json.str s2) => s2
                | _ => "No summary provided.".data
              Except.ok (Decision.mk risk issues summary)
            else Except.error (NormError.validation (invalidRiskMsg r))
        | _ => Except.error (NormError.validation msgMissingRisk)

/-! ## PolicyEngine -/

/-- The policy engine: `switch` on the risk string, `HIGH` blocks,
`MEDIUM` warns, `LOW` and the default case allow. -/
def evaluateRisk (risk : Str) : Str :=
  if risk = "HIGH".data then "BLOCK".data
  else if risk = "MEDIUM".data then "WARN".data
  else "ALLOW".data

/-! ## DiffSummarizer -/

/-- The structured metadata extracted from the raw diff. -/
structure DiffMetadata where
  files_changed : Nat
  files : List Str
  lines_added : Nat
  lines_removed : Nat
deriving DecidableEq

/-- Mutable scan state of `parseDiff`. -/
structure DiffScanState where
  files : List Str
  linesAdded : Nat
  linesRemoved : Nat
  isBinary : Bool
deriving DecidableEq

/-- JS `String.prototype.split` with a one-character separator. -/
def splitOnChar (sep : Char) : Str → List Str
  | [] => [[]]
  | c :: cs =>
      let r := splitOnChar sep cs
      if c = sep then [] :: r
      else
        match r with
        | h :: t => (c :: h) :: t
        | [] => [[c]]

/-- JS `line.split(" ").pop()`: the final space-separated token. -/
def lastTok (line : Str) : Str := (splitOnChar ' ' line).getLastD []

/-- JS `Set.prototype.add`: keep insertion order, ignore duplicates. -/
def addFile (files : List Str) (f : Str) : List Str :=
  if f ∈ files then files else files ++ [f]

/-- The diff file-header marker. -/
def dgHeader : Str := "diff --git".data

/-- The binary-file marker. -/
def binMarker : Str := "Binary files".data

/-- One iteration of the `parseDiff` line loop. -/
def scanDiffLine (st : DiffScanState) (line : Str) : DiffScanState :=
  let st :=
    if startsW dgHeader line then
      { st with isBinary := false, files := addFile st.files (lastTok line) }
    else st
  let st := if startsW binMarker line then { st with isBinary := true } else st
  if st.isBinary then st
  else
    let st :=
      if startsW "+".data line && !(startsW "+++".data line) then
        { st with linesAdded := st.linesAdded + 1 }
      else st
    if startsW "-".data line && !(startsW "---".data line) then
      { st with linesRemoved := st.linesRemoved + 1 }
    else st

/-- The DiffSummarizer: file set (insertion order, deduplicated) and
added/removed line tallies, with binary hunks excluded. -/
def parseDiff (rawDiff : Str) : DiffMetadata :=
  let lines := splitOnChar '\n' rawDiff
  let st := lines.foldl scanDiffLine (DiffScanState.mk [] 0 0 false)
  DiffMetadata.mk st.files.length st.files st.linesAdded st.linesRemoved

/-! ## ModelGateway failures and the orchestrator -/

/-- The attributes of a JS `Error` inspected by the catch handler. -/
structure JsError where
  name : Str
  message : Str
  causeCode : Option Str
deriving DecidableEq

/-- The error thrown by `callLocalLLM` on a non-2xx chat-completion
response: `new Error("Server status " + status)`, name `Error`, no
`cause`. -/
def serverStatusError (status : Nat) : JsError :=
  JsError.mk "Error".data ("Server status ".data ++ natDigits status) none

/-- The DOMException produced when the shared deadline fires. -/
def abortError : JsError :=
  JsError.mk "AbortError".data "This operation was aborted".data none

/-- The TypeError produced by an unreachable endpoint, carrying a
`cause` with a system error code. -/
def fetchFailedError (code : Str) : JsError :=
  JsError.mk "TypeError".data "fetch failed".data (some code)

/-- The JS error object corresponding to a `NormError` thrown inside
the try block. -/
def normErrToJs : NormError → JsError
  | NormError.validation m => JsError.mk "Error".data m none
  | NormError.typeError m => JsError.mk "TypeError".data m none

/-- The orchestrator's infrastructure-failure test: abort by name,
`fetch failed` by message substring, or a refused/reset connection by
wrapped cause code. -/
def isInfraError (e : JsError) : Bool :=
  decide (e.name = "AbortError".data) ||
  containsSeq "fetch failed".data e.message ||
  (match e.causeCode with
   | some code => decide (code = "ECONNREFUSED".data ∨ code = "ECONNRESET".data)
   | none => false)

/-- The chat-completion content extraction
`data.choices[0]?.message?.content || "\x7b\x7d"`: an absent or empty
(falsy) content falls back to the literal empty-object string. -/
def contentOrDefault : Option Str → Str
  | none => "\x7b\x7d".data
  | some s => if s.isEmpty then "\x7b\x7d".data else s

/-- Terminal outcome of one run. -/
inductive Outcome where
  | oversized
  | noChanges
  | skipped
  | internalError (msg : Str)
  | reviewed (d : Decision) (action : Str)
deriving DecidableEq

/-- The process exit code of each outcome: oversized input and internal
errors exit 1, a BLOCK review exits 1, everything else exits 0. -/
def exitCode : Outcome → Nat
  | Outcome.oversized => 1
  | Outcome.noChanges => 0
  | Outcome.skipped => 0
  | Outcome.internalError _ => 1
  | Outcome.reviewed _ action => if action = "BLOCK".data then 1 else 0

/-- The catch handler: infrastructure failures degrade to a skipped,
allowing outcome; everything else blocks with an internal error. -/
def classifyCatch (e : JsError) : Outcome :=
  if isInfraError e then Outcome.skipped else Outcome.internalError e.message

/-- The part of the end handler after `callLocalLLM` resolves or
rejects: normalize, evaluate policy, or classify the thrown error. -/
def afterCall (res : Except JsError Str) : Outcome :=
  match res with
  | Except.error e => classifyCatch e
  | Except.ok raw =>
      match normalizeResponse raw with
      | Except.error ne => classifyCatch (normErrToJs ne)
      | Except.ok d => Outcome.reviewed d (evaluateRisk d.risk)

/-- Line-ending normalization at the top of the end handler. -/
def normalizeNewlines (s : Str) : Str :=
  repAll "\r".data "\n".data (repAll "\r\n".data "\n".data s)

/-- The stdin end handler.  The model call is abstracted as a function
of the extracted metadata and the normalized diff (prompt assembly is
out-of-scope glue); the second component records whether the network
call was issued at all. -/
def endHandler (diff : Str) (llm : DiffMetadata → Str → Except JsError Str) :
    Outcome × Bool :=
  let ndiff := normalizeNewlines diff
  if trimSeq ndiff = [] then (Outcome.noChanges, false)
  else
    let metadata := parseDiff ndiff
    (afterCall (llm metadata ndiff), true)

/-! ## Input collection and the size guard -/

/-- The configured maximum diff size in bytes. -/
def MAX_DIFF_BYTES : Nat := 500000

/-- One stdin chunk: a Buffer's byte length (`chunk.length`) and its
UTF-8 decoding (`chunk.toString("utf8")`). -/
structure Chunk where
  byteLength : Nat
  text : Str
deriving DecidableEq

/-- The globals mutated by the data handler. -/
structure CollectState where
  diff : Str
  byteCount : Nat
  aborted : Bool
deriving DecidableEq

/-- The stdin data handler: count the chunk's bytes first, abort (and
exit 1) the instant the running total exceeds the maximum — before the
chunk's text is appended — otherwise append. -/
def onData (st : CollectState) (chunk : Chunk) : CollectState :=
  if st.aborted then st
  else
    let bc := st.byteCount + chunk.byteLength
    if bc > MAX_DIFF_BYTES then
      { st with byteCount := bc, aborted := true }
    else
      { st with byteCount := bc, diff := st.diff ++ chunk.text }

/-- Collection of the whole stdin stream. -/
def collect (chunks : List Chunk) : CollectState :=
  chunks.foldl onData (CollectState.mk [] 0 false)

/-- A whole run: collect the stream, then (unless the size guard
aborted) run the end handler.  The Bool records whether the model
endpoint was contacted. -/
def runPipeline (chunks : List Chunk)
    (llm : DiffMetadata → Str → Except JsError Str) : Outcome × Bool :=
  let st := collect chunks
  if st.aborted then (Outcome.oversized, false)
  else endHandler st.diff llm


/-! ## Definitions supporting the claims -/

/-- Total byte count of a list of chunks. -/
def byteSum (chunks : List Chunk) : Nat := (chunks.map Chunk.byteLength).sum

/-- Is this diff line a countable content line (`+`/`-` but not the
`+++`/`---` file markers)? -/
def isContentLine (line : Str) : Bool :=
  (startsW "+".data line && !(startsW "+++".data line)) ||
  (startsW "-".data line && !(startsW "---".data line))

/-- Line `i` lies inside a binary region: some earlier line is a
binary-file marker and no file header occurs between it and line `i`. -/
def binaryShielded (lines : List Str) (i : Nat) : Prop :=
  ∃ j < i, startsW binMarker (lines.getD j []) = true ∧
    ∀ k < i, j < k → startsW dgHeader (lines.getD k []) = false

/-- Bounded quantifiers make the predicate decidable, so witnesses can
be checked by evaluation. -/
instance decBinaryShielded (lines : List Str) (i : Nat) :
    Decidable (binaryShielded lines i) :=
  decidable_of_iff (∃ j < i, startsW binMarker (lines.getD j []) = true ∧
    ∀ k < i, j < k → startsW dgHeader (lines.getD k []) = false) Iff.rfl

/-- The scan history ends inside a binary region (a marker with no
later header). -/
def binActive (hist : List Str) : Prop := binaryShielded hist hist.length

/-- The parsed reply's `risk` field fails the enum gate: it is absent,
not a string, or a string other than LOW/MEDIUM/HIGH after upper-casing. -/
def riskFieldInvalid (data : Json) : Prop :=
  match jsGet data "risk".data with
  | some (Json.str r) => upperSeq r ∉ validRisks
  | _ => True

/-- What `normalizeResponse` actually produces on an invalid `risk`
field: the naming message only for a non-empty string value, the generic
missing-field message for every other shape (absent, empty, non-string). -/
def c3Expected (s : Str) (data : Json) : Prop :=
  match jsGet data "risk".data with
  | some (Json.str r) =>
      if r = [] then
        normalizeResponse s = Except.error (NormError.validation msgMissingRisk)
      else
        normalizeResponse s = Except.error (NormError.validation (invalidRiskMsg r)) ∧
        ∃ i, startsW r ((invalidRiskMsg r).drop i) = true
  | _ => normalizeResponse s = Except.error (NormError.validation msgMissingRisk)

/-- `JSON.stringify` of a list of strings, without the brackets. -/
def renderStrs : List Str → Str
  | [] => []
  | [x] => renderStr x
  | x :: xs => renderStr x ++ ',' :: renderStrs xs

/-- The member text of the serialized Decision object. -/
def renderInner (d : Decision) : Str :=
  "\"risk\":".data ++ renderStr d.risk ++ ",\"issues\":[".data ++
    renderStrs d.issues ++ "],\"summary\":".data ++ renderStr d.summary

/-- `JSON.stringify` of a canonical Decision (insertion-order keys
`risk`, `issues`, `summary`, no added whitespace). -/
def renderDecision (d : Decision) : Str :=
  ('\x7b' :: renderInner d) ++ ['\x7d']

/-- The JSON value a canonical Decision serializes to. -/
def decisionJson (d : Decision) : Json :=
  Json.obj [("risk".data, Json.str d.risk),
            ("issues".data, Json.arr (d.issues.map Json.str)),
            ("summary".data, Json.str d.summary)]


/-! ## Supporting lemmas -/

theorem startsW_append_self (p t : Str) : startsW p (p ++ t) = true := by
  induction p with
  | nil => rfl
  | cons c cs ih => simpa [startsW] using ih

theorem startsW_head_mem {p : Char} {ps s : Str} (h : startsW (p :: ps) s = true) :
    p ∈ s := by
  cases s with
  | nil => simp [startsW] at h
  | cons c cs =>
    simp only [startsW, Bool.and_eq_true, decide_eq_true_eq] at h
    exact h.1 ▸ List.mem_cons_self _ _

theorem findSeq_some_starts (pat : Str) :
    ∀ (s : Str) (i : Nat), findSeq pat s = some i → startsW pat (s.drop i) = true := by
  intro s
  induction s with
  | nil =>
    intro i h
    by_cases hp : startsW pat [] = true
    · simp [findSeq, hp] at h
      subst h
      simpa using hp
    · simp [findSeq, hp] at h
  | cons c cs ih =>
    intro i h
    by_cases hp : startsW pat (c :: cs) = true
    · simp [findSeq, hp] at h
      subst h
      simpa using hp
    · simp [findSeq, hp, Option.map_eq_some'] at h
      obtain ⟨j, hj, rfl⟩ := h
      simpa [List.drop_succ_cons] using ih j hj

theorem containsSeq_head_mem {p : Char} {ps s : Str}
    (h : containsSeq (p :: ps) s = true) : p ∈ s := by
  unfold containsSeq at h
  rcases hfs : findSeq (p :: ps) s with _ | i
  · rw [hfs] at h; simp at h
  · exact List.drop_subset _ _ (startsW_head_mem (findSeq_some_starts _ _ _ hfs))

theorem digitChar_mem {n : Nat} (h : n < 10) : digitChar n ∈ "0123456789".data := by
  interval_cases n <;> decide

theorem natDigitsAux_mem (fuel : Nat) :
    ∀ n c, c ∈ natDigitsAux fuel n → c ∈ "0123456789".data := by
  induction fuel with
  | zero => intro n c h; simp [natDigitsAux] at h
  | succ f ih =>
    intro n c h
    by_cases hn : n < 10
    · simp [natDigitsAux, hn] at h
      exact h ▸ digitChar_mem hn
    · simp [natDigitsAux, hn] at h
      rcases h with h | h
      · exact ih _ _ h
      · exact h ▸ digitChar_mem (Nat.mod_lt _ (by norm_num))

theorem serverStatus_no_f (status : Nat) :
    'f' ∉ (serverStatusError status).message := by
  intro hmem
  simp only [serverStatusError, natDigits, List.mem_append] at hmem
  rcases hmem with h | h
  · revert h; decide
  · have hd := natDigitsAux_mem _ _ _ h
    revert hd; decide

theorem isInfraError_serverStatus (status : Nat) :
    isInfraError (serverStatusError status) = false := by
  have h2 : containsSeq "fetch failed".data (serverStatusError status).message = false := by
    cases hc : containsSeq "fetch failed".data (serverStatusError status).message with
    | false => rfl
    | true =>
      have hm : 'f' ∈ (serverStatusError status).message := containsSeq_head_mem hc
      exact absurd hm (serverStatus_no_f status)
  unfold isInfraError
  rw [h2]
  simp [serverStatusError]

theorem findCISeq_some_lt (pat : Str) (hpat : pat ≠ []) :
    ∀ (s : Str) (i : Nat), findCISeq pat s = some i → i < s.length := by
  intro s
  induction s with
  | nil =>
    intro i h
    rcases pat with _ | ⟨p, ps⟩
    · exact absurd rfl hpat
    · simp [findCISeq, ciStartsW] at h
  | cons c cs ih =>
    intro i h
    by_cases hp : ciStartsW pat (c :: cs) = true
    · simp [findCISeq, hp] at h
      subst h
      simp
    · simp [findCISeq, hp, Option.map_eq_some'] at h
      obtain ⟨j, hj, rfl⟩ := h
      have := ih j hj
      simp only [List.length_cons]
      omega

/-! ## Claim theorems -/

/-- C6: the PolicyEngine is a pure total function on strings: `HIGH`
maps to `BLOCK`, `MEDIUM` to `WARN`, `LOW` to `ALLOW`, and every other
string maps to `ALLOW` through the switch default. -/
theorem c6_policy_total :
    evaluateRisk "HIGH".data = "BLOCK".data ∧
    evaluateRisk "MEDIUM".data = "WARN".data ∧
    evaluateRisk "LOW".data = "ALLOW".data ∧
    ∀ risk : Str, risk ≠ "HIGH".data → risk ≠ "MEDIUM".data →
      evaluateRisk risk = "ALLOW".data := by
  refine ⟨by decide, by decide, by decide, ?_⟩
  intro risk h1 h2
  simp [evaluateRisk, h1, h2]

/-- C6 witness: the defensive default maps an out-of-enum string to ALLOW. -/
theorem c6_policy_total_witness : evaluateRisk "CRITICAL".data = "ALLOW".data :=
  c6_policy_total.2.2.2 "CRITICAL".data (by decide) (by decide)

/-- C1 (amended): an HTTP non-2xx status from the chat-completion call is
thrown as `Server status N` with name `Error` and no cause, which the
orchestrator's classifier does NOT treat as an infrastructure failure —
unlike an abort or a refused connection, which it does skip — so the run is
not skipped: it ends as a blocking internal error with exit code 1. -/
theorem c1_non2xx_fatal (status : Nat) :
    isInfraError (serverStatusError status) = false ∧
    afterCall (Except.error (serverStatusError status))
      = Outcome.internalError (serverStatusError status).message ∧
    exitCode (afterCall (Except.error (serverStatusError status))) = 1 ∧
    isInfraError (fetchFailedError "ECONNREFUSED".data) = true ∧
    isInfraError abortError = true := by
  have h := isInfraError_serverStatus status
  refine ⟨h, ?_, ?_, by decide, by decide⟩
  · simp [afterCall, classifyCatch, h]
  · simp [afterCall, classifyCatch, h, exitCode]

/-- C1 counterexample: at HTTP status 500 the run is not skipped with
success as the claim states; it is an internal error exiting 1. -/
theorem c1_counterexample :
    afterCall (Except.error (serverStatusError 500)) ≠ Outcome.skipped ∧
    exitCode (afterCall (Except.error (serverStatusError 500))) = 1 :=
  ⟨by decide, by decide⟩

/-- C9: a 2xx reply whose first-choice content is absent or empty falls
back to the literal empty-object string; normalizing it fails the risk
presence check, which the orchestrator classifies as a fatal internal
error with exit code 1 — not an infrastructure skip. -/
theorem c9_contentless_fatal (c : Option Str) (h : c = none ∨ c = some ([] : Str)) :
    contentOrDefault c = "\x7b\x7d".data ∧
    afterCall (Except.ok (contentOrDefault c))
      = Outcome.internalError msgMissingRisk ∧
    exitCode (afterCall (Except.ok (contentOrDefault c))) = 1 := by
  rcases h with rfl | rfl
  · exact ⟨rfl, rfl, rfl⟩
  · exact ⟨rfl, rfl, rfl⟩

/-- C9 witness: the absent-content case. -/
theorem c9_witness :
    contentOrDefault none = "\x7b\x7d".data ∧
    afterCall (Except.ok (contentOrDefault none))
      = Outcome.internalError msgMissingRisk ∧
    exitCode (afterCall (Except.ok (contentOrDefault none))) = 1 :=
  c9_contentless_fatal none (Or.inl rfl)

theorem normalizeResponse_typeError_inv (s m : Str)
    (h : normalizeResponse s = Except.error (NormError.typeError m)) :
    jsonParse (cleanPipeline s) = some Json.null ∧ m = msgNullRead := by
  simp only [normalizeResponse] at h
  rcases hp : jsonParse (cleanPipeline s) with _ | data
  · rw [hp] at h; simp at h
  · rw [hp] at h
    cases data with
    | null =>
      simp at h
      exact ⟨rfl, h.symm⟩
    | bool b =>
      repeat' split at h
      all_goals simp_all
    | num lex =>
      repeat' split at h
      all_goals simp_all
    | str s1 =>
      repeat' split at h
      all_goals simp_all
    | arr es =>
      repeat' split at h
      all_goals simp_all
    | obj fields =>
      repeat' split at h
      all_goals simp_all

/-- C2 (amended): for every input string the normalizer returns a valid
Decision or a descriptive validation error, with exactly one exception:
a reply whose recovered text parses to JSON `null`, where reading the
`risk` property raises a TypeError instead. -/
theorem c2_never_raises_other (s : Str) :
    (∃ d, normalizeResponse s = Except.ok d) ∨
    (∃ m, normalizeResponse s = Except.error (NormError.validation m)) ∨
    (jsonParse (cleanPipeline s) = some Json.null ∧
     normalizeResponse s = Except.error (NormError.typeError msgNullRead)) := by
  cases hnr : normalizeResponse s with
  | ok d => exact Or.inl ⟨d, rfl⟩
  | error e =>
    cases e with
    | validation m => exact Or.inr (Or.inl ⟨m, rfl⟩)
    | typeError m =>
      obtain ⟨hp, hm⟩ := normalizeResponse_typeError_inv s m hnr
      subst hm
      exact Or.inr (Or.inr ⟨hp, rfl⟩)

/-- C2 counterexample: the reply `null` parses to JSON null and makes the
normalizer raise a TypeError — not a descriptive validation error —
refuting "it never raises any other kind of exception". -/
theorem c2_counterexample :
    normalizeResponse "null".data = Except.error (NormError.typeError msgNullRead) ∧
    jsonParse (cleanPipeline "null".data) = some Json.null :=
  ⟨rfl, rfl⟩

/-- C10 (amended): if the first opening think marker of the input (when
one exists) has no closing marker anywhere after it, the reasoning-strip
step leaves the whole text unchanged.  (The claim's broader statement —
any input containing some unpaired opening marker is left unchanged —
fails when an earlier paired span exists; see the counterexample.) -/
theorem c10_unpaired_marker (s : Str)
    (h : ∀ i, i < s.length → findCISeq thinkOpen s = some i →
         findCISeq thinkClose (s.drop (i + 7)) = none) :
    stripThink s = s := by
  unfold stripThink
  rcases ho : findCISeq thinkOpen s with _ | i
  · simp [stripThinkAux, ho]
  · have hi : i < s.length := findCISeq_some_lt thinkOpen (by decide) s i ho
    have hc := h i hi ho
    simp [stripThinkAux, ho, hc]

/-- C10 witness: a reply that is one unpaired opening marker plus text
passes through the strip step untouched. -/
theorem c10_witness :
    (∀ i, i < ("<think>abc".data : Str).length →
       findCISeq thinkOpen "<think>abc".data = some i →
       findCISeq thinkClose (("<think>abc".data : Str).drop (i + 7)) = none) ∧
    stripThink "<think>abc".data = "<think>abc".data :=
  ⟨by decide, c10_unpaired_marker _ (by decide)⟩

/-- C10 counterexample: this input contains an opening marker (at index
16) with no matching closing marker, yet the strip step changes the text
(the earlier paired block is removed), refuting the claim as stated. -/
theorem c10_counterexample :
    stripThink "<think>a</think><think>b".data = "<think>b".data ∧
    "<think>a</think><think>b".data ≠ "<think>b".data ∧
    findCISeq thinkOpen (("<think>a</think><think>b".data : Str).drop 16) = some 0 ∧
    findCISeq thinkClose (("<think>a</think><think>b".data : Str).drop 23) = none :=
  ⟨by decide, by decide, by decide, by decide⟩

theorem onData_aborted (st : CollectState) (h : st.aborted = true) (c : Chunk) :
    onData st c = st := by
  simp [onData, h]

theorem foldl_onData_aborted (chunks : List Chunk) (st : CollectState)
    (h : st.aborted = true) : chunks.foldl onData st = st := by
  induction chunks with
  | nil => rfl
  | cons c cs ih => rw [List.foldl_cons, onData_aborted st h, ih]

theorem byteSum_cons (c : Chunk) (cs : List Chunk) :
    byteSum (c :: cs) = c.byteLength + byteSum cs := by
  simp [byteSum]

theorem collect_aux_aborts :
    ∀ (chunks : List Chunk) (st : CollectState),
      st.aborted = false → st.byteCount ≤ MAX_DIFF_BYTES →
      MAX_DIFF_BYTES < st.byteCount + byteSum chunks →
      (chunks.foldl onData st).aborted = true := by
  intro chunks
  induction chunks with
  | nil =>
    intro st h1 h2 h3
    simp [byteSum] at h3
    omega
  | cons c cs ih =>
    intro st h1 h2 h3
    rw [List.foldl_cons]
    rw [byteSum_cons] at h3
    by_cases hb : MAX_DIFF_BYTES < st.byteCount + c.byteLength
    · have hstep : onData st c
          = { st with byteCount := st.byteCount + c.byteLength, aborted := true } := by
        simp [onData, h1, hb]
      rw [hstep, foldl_onData_aborted _ _ rfl]
    · have hstep : onData st c
          = { st with byteCount := st.byteCount + c.byteLength,
                      diff := st.diff ++ c.text } := by
        simp [onData, h1, hb]
      rw [hstep]
      apply ih
      · exact h1
      · exact Nat.le_of_not_lt hb
      · show MAX_DIFF_BYTES < st.byteCount + c.byteLength + byteSum cs
        omega

/-- C7: the size guard is incremental: the instant the accumulated byte
count of any prefix of the stream exceeds the maximum, collection is
already aborted after that prefix — and the whole run ends as a fatal
oversize abort with exit code 1, with the model endpoint never
contacted, regardless of the rest of the stream. -/
theorem c7_size_guard (chunks : List Chunk) (k : Nat)
    (llm : DiffMetadata → Str → Except JsError Str)
    (h : MAX_DIFF_BYTES < byteSum (chunks.take k)) :
    (collect (chunks.take k)).aborted = true ∧
    runPipeline chunks llm = (Outcome.oversized, false) ∧
    exitCode (runPipeline chunks llm).1 = 1 := by
  have h1 : (collect (chunks.take k)).aborted = true := by
    apply collect_aux_aborts _ _ rfl (by simp)
    simpa using h
  have h2 : (collect chunks).aborted = true := by
    calc (collect chunks).aborted
        = ((chunks.take k ++ chunks.drop k).foldl onData
            (CollectState.mk [] 0 false)).aborted := by
          rw [List.take_append_drop]
          rfl
      _ = ((chunks.drop k).foldl onData
            ((chunks.take k).foldl onData (CollectState.mk [] 0 false))).aborted := by
          rw [List.foldl_append]
      _ = true := by
          have h1a : (List.foldl onData (CollectState.mk [] 0 false)
              (chunks.take k)).aborted = true := h1
          rw [foldl_onData_aborted _ _ h1a]
          exact h1a
  refine ⟨h1, ?_, ?_⟩
  · simp [runPipeline, h2]
  · simp [runPipeline, h2, exitCode]

/-- C7 witness: a single oversized chunk aborts the run before any call. -/
theorem c7_witness :
    MAX_DIFF_BYTES < byteSum (([Chunk.mk 500001 "x".data] : List Chunk).take 1) ∧
    runPipeline [Chunk.mk 500001 "x".data] (fun _ _ => Except.ok [])
      = (Outcome.oversized, false) :=
  ⟨by decide, (c7_size_guard [Chunk.mk 500001 "x".data] 1 (fun _ _ => Except.ok [])
      (by decide)).2.1⟩

/-- C4: every Decision the normalizer returns has a risk equal to one of
the three canonical upper-case enum values, whatever casing the model
used; the orchestrator applies the policy stage only to such a Decision
(`afterCall` reaches `evaluateRisk` only through a successful
`normalizeResponse`). -/
theorem c4_risk_always_enum (s : Str) (d : Decision)
    (h : normalizeResponse s = Except.ok d) :
    d.risk = "LOW".data ∨ d.risk = "MEDIUM".data ∨ d.risk = "HIGH".data := by
  simp only [normalizeResponse] at h
  repeat' split at h
  all_goals cases h
  all_goals simp_all [validRisks]

/-- C4 witness: a lower-case model risk reaches the Decision as upper-case LOW. -/
theorem c4_witness :
    (Decision.mk "LOW".data [] "No summary provided.".data).risk = "LOW".data ∨
    (Decision.mk "LOW".data [] "No summary provided.".data).risk = "MEDIUM".data ∨
    (Decision.mk "LOW".data [] "No summary provided.".data).risk = "HIGH".data :=
  c4_risk_always_enum "\x7b\"risk\":\"low\"\x7d".data _ rfl

/-- C3 (amended): for every reply that parses as JSON (not null) with a
risk field failing the enum gate, the normalizer fails with a fatal
validation error; the message names the offending value only when the
field is a non-empty string — a missing, empty-string, numeric, null, or
other non-string risk gets the generic missing-field message instead,
which does not embed the value. -/
theorem c3_invalid_risk (s : Str) (data : Json)
    (hp : jsonParse (cleanPipeline s) = some data)
    (hnn : data ≠ Json.null)
    (hinv : riskFieldInvalid data) :
    c3Expected s data := by
  cases data with
  | null => exact absurd rfl hnn
  | bool b =>
    simp only [c3Expected, jsGet]
    simp [normalizeResponse, hp, jsGet, falsyOpt, isStringOpt]
  | num lex =>
    simp only [c3Expected, jsGet]
    simp [normalizeResponse, hp, jsGet, falsyOpt, isStringOpt]
  | str s1 =>
    simp only [c3Expected, jsGet]
    simp [normalizeResponse, hp, jsGet, falsyOpt, isStringOpt]
  | arr es =>
    simp only [c3Expected, jsGet]
    simp [normalizeResponse, hp, jsGet, falsyOpt, isStringOpt]
  | obj fields =>
    rcases hg : findLastField "risk".data fields with _ | v
    · simp only [c3Expected, jsGet, hg]
      simp [normalizeResponse, hp, jsGet, hg, falsyOpt]
    · cases v with
      | str r =>
        by_cases hr : r = []
        · subst hr
          simp only [c3Expected, jsGet, hg, if_pos rfl]
          simp [normalizeResponse, hp, jsGet, hg, falsyOpt, jsFalsy]
        · have hmem : upperSeq r ∉ validRisks := by
            simpa only [riskFieldInvalid, jsGet, hg] using hinv
          simp only [c3Expected, jsGet, hg, if_neg hr]
          constructor
          · simp [normalizeResponse, hp, jsGet, hg, falsyOpt, jsFalsy,
              isStringOpt, hr, hmem]
          · refine ⟨("Invalid risk value: ".data ++ [sq]).length, ?_⟩
            have hsplit : invalidRiskMsg r
                = ("Invalid risk value: ".data ++ [sq]) ++
                  (r ++ ([sq] ++ ". Must be LOW, MEDIUM, or HIGH.".data)) := by
              simp [invalidRiskMsg, List.append_assoc]
            rw [hsplit, List.drop_left]
            exact startsW_append_self r _
      | null =>
        simp only [c3Expected, jsGet, hg]
        simp [normalizeResponse, hp, jsGet, hg, falsyOpt, jsFalsy]
      | bool b =>
        simp only [c3Expected, jsGet, hg]
        simp [normalizeResponse, hp, jsGet, hg, falsyOpt, jsFalsy, isStringOpt]
      | num lex =>
        simp only [c3Expected, jsGet, hg]
        simp [normalizeResponse, hp, jsGet, hg, falsyOpt, jsFalsy, isStringOpt]
      | arr es =>
        simp only [c3Expected, jsGet, hg]
        simp [normalizeResponse, hp, jsGet, hg, falsyOpt, jsFalsy, isStringOpt]
      | obj fields2 =>
        simp only [c3Expected, jsGet, hg]
        simp [normalizeResponse, hp, jsGet, hg, falsyOpt, jsFalsy, isStringOpt]

/-- C3 witness: a string risk outside the enum is rejected with the
message that names it. -/
theorem c3_witness :
    jsonParse (cleanPipeline "\x7b\"risk\": \"CRITICAL\"\x7d".data)
      = some (Json.obj [("risk".data, Json.str "CRITICAL".data)]) ∧
    (Json.obj [("risk".data, Json.str "CRITICAL".data)] ≠ Json.null) ∧
    riskFieldInvalid (Json.obj [("risk".data, Json.str "CRITICAL".data)]) ∧
    c3Expected "\x7b\"risk\": \"CRITICAL\"\x7d".data
      (Json.obj [("risk".data, Json.str "CRITICAL".data)]) := by
  refine ⟨rfl, by simp, ?_, ?_⟩
  · show upperSeq "CRITICAL".data ∉ validRisks
    decide
  · exact c3_invalid_risk _ _ rfl (by simp)
      (by show upperSeq "CRITICAL".data ∉ validRisks; decide)

/-- C3 counterexample: a numeric risk value (5) fails with the generic
missing-field message, which does not name the offending value (the
message does not even contain the digit), refuting the claim that the
error message names the offending value for numeric risks. -/
theorem c3_counterexample :
    normalizeResponse "\x7b\"risk\": 5\x7d".data
      = Except.error (NormError.validation msgMissingRisk) ∧
    containsSeq "5".data msgMissingRisk = false ∧
    '5' ∉ msgMissingRisk :=
  ⟨rfl, by decide, by decide⟩

theorem getD_append_lt (l1 l2 : List Str) (i : Nat) (h : i < l1.length) :
    (l1 ++ l2).getD i [] = l1.getD i [] := by
  rw [List.getD_eq_get?, List.getD_eq_get?, List.get?_append h]

theorem getD_append_self (l1 : List Str) (x : Str) (l2 : List Str) :
    (l1 ++ x :: l2).getD l1.length [] = x := by
  rw [List.getD_eq_get?, List.get?_append_right (Nat.le_refl _)]
  simp

theorem startsW_cons_head {p : Char} {ps : Str} {c : Char} {cs : Str}
    (h : startsW (p :: ps) (c :: cs) = true) : p = c := by
  simp only [startsW, Bool.and_eq_true, decide_eq_true_eq] at h
  exact h.1

theorem startsW_false_of_head {p q : Char} {ps qs : Str} {l : Str}
    (hpq : p ≠ q) (h : startsW (p :: ps) l = true) :
    startsW (q :: qs) l = false := by
  cases l with
  | nil => simp [startsW] at h
  | cons c cs =>
    have hpc : p = c := startsW_cons_head h
    have hqc : q ≠ c := fun hh => hpq (hpc.trans hh.symm)
    simp [startsW, hqc]

theorem scan_header (st : DiffScanState) (l : Str)
    (h : startsW dgHeader l = true) :
    scanDiffLine st l
      = { st with isBinary := false, files := addFile st.files (lastTok l) } := by
  have hd : startsW ('d' :: "iff --git".data) l = true := h
  have hM : startsW binMarker l = false := startsW_false_of_head (by decide) hd
  have hP : startsW "+".data l = false := startsW_false_of_head (by decide) hd
  have hMi : startsW "-".data l = false := startsW_false_of_head (by decide) hd
  simp [scanDiffLine, h, hM, hP, hMi]

theorem scan_marker (st : DiffScanState) (l : Str)
    (hM : startsW binMarker l = true) (hH : startsW dgHeader l = false) :
    scanDiffLine st l = { st with isBinary := true } := by
  simp [scanDiffLine, hM, hH]

theorem scan_other_binary (st : DiffScanState) (l : Str)
    (hH : startsW dgHeader l = false) (hM : startsW binMarker l = false)
    (hb : st.isBinary = true) :
    scanDiffLine st l = st := by
  simp [scanDiffLine, hH, hM, hb]

theorem scan_other_clean (st : DiffScanState) (l : Str)
    (hH : startsW dgHeader l = false) (hM : startsW binMarker l = false)
    (hb : st.isBinary = false) (hc : isContentLine l = false) :
    scanDiffLine st l = st := by
  simp only [isContentLine, Bool.or_eq_false_iff] at hc
  simp [scanDiffLine, hH, hM, hb, hc.1, hc.2]

theorem binActive_append_header (hist : List Str) (l : Str)
    (hH : startsW dgHeader l = true) (hM : startsW binMarker l = false) :
    ¬ binActive (hist ++ [l]) := by
  rintro ⟨j, hj, hmark, hnh⟩
  have hj' : j < hist.length + 1 := by simpa using hj
  rcases Nat.lt_succ_iff_lt_or_eq.mp hj' with hjlt | hjeq
  · have hk := hnh hist.length (by simp) hjlt
    rw [getD_append_self] at hk
    rw [hk] at hH
    exact Bool.false_ne_true hH
  · rw [hjeq, getD_append_self] at hmark
    rw [hmark] at hM
    simp at hM

theorem binActive_append_marker (hist : List Str) (l : Str)
    (hM : startsW binMarker l = true) :
    binActive (hist ++ [l]) := by
  refine ⟨hist.length, by simp, ?_, ?_⟩
  · rw [getD_append_self]; exact hM
  · intro k hk hjk
    have : k < hist.length + 1 := by simpa using hk
    omega

theorem binActive_append_other (hist : List Str) (l : Str)
    (hH : startsW dgHeader l = false) (hM : startsW binMarker l = false) :
    binActive (hist ++ [l]) ↔ binActive hist := by
  constructor
  · rintro ⟨j, hj, hmark, hnh⟩
    have hj' : j < hist.length + 1 := by simpa using hj
    have hjlt : j < hist.length := by
      rcases Nat.lt_succ_iff_lt_or_eq.mp hj' with h | h
      · exact h
      · exfalso
        rw [h, getD_append_self] at hmark
        rw [hmark] at hM
        simp at hM
    refine ⟨j, hjlt, ?_, ?_⟩
    · rw [getD_append_lt _ _ _ hjlt] at hmark
      exact hmark
    · intro k hk hjk
      have h5 := hnh k (by simp; omega) hjk
      rw [getD_append_lt _ _ _ hk] at h5
      exact h5
  · rintro ⟨j, hj, hmark, hnh⟩
    refine ⟨j, by simp; omega, ?_, ?_⟩
    · rw [getD_append_lt _ _ _ hj]
      exact hmark
    · intro k hk hjk
      have hk' : k < hist.length + 1 := by simpa using hk
      rcases Nat.lt_succ_iff_lt_or_eq.mp hk' with h | h
      · rw [getD_append_lt _ _ _ h]
        exact hnh k h hjk
      · rw [h, getD_append_self]
        exact hH

theorem scan_suffix_zero (L : List Str)
    (hL : ∀ i, i < L.length → isContentLine (L.getD i []) = true →
          binaryShielded L i) :
    ∀ (suffix hist : List Str) (st : DiffScanState),
      hist ++ suffix = L →
      st.linesAdded = 0 → st.linesRemoved = 0 →
      (st.isBinary = true ↔ binActive hist) →
      (suffix.foldl scanDiffLine st).linesAdded = 0 ∧
      (suffix.foldl scanDiffLine st).linesRemoved = 0 := by
  intro suffix
  induction suffix with
  | nil =>
    intro hist st heq ha hr hb
    simpa using ⟨ha, hr⟩
  | cons l ls ih =>
    intro hist st heq ha hr hb
    have hassoc : (hist ++ [l]) ++ ls = L := by
      rw [List.append_assoc]
      simpa using heq
    rw [List.foldl_cons]
    by_cases hH : startsW dgHeader l = true
    · have hd : startsW ('d' :: "iff --git".data) l = true := hH
      have hM : startsW binMarker l = false := startsW_false_of_head (by decide) hd
      rw [scan_header st l hH]
      refine ih (hist ++ [l]) _ hassoc ?_ ?_ ?_
      · exact ha
      · exact hr
      · have hnb := binActive_append_header hist l hH hM
        simp [hnb]
    · have hHf : startsW dgHeader l = false := Bool.eq_false_iff.mpr hH
      by_cases hM : startsW binMarker l = true
      · rw [scan_marker st l hM hHf]
        refine ih (hist ++ [l]) _ hassoc ?_ ?_ ?_
        · exact ha
        · exact hr
        · have hb2 := binActive_append_marker hist l hM
          simp [hb2]
      · have hMf : startsW binMarker l = false := Bool.eq_false_iff.mpr hM
        by_cases hbin : st.isBinary = true
        · rw [scan_other_binary st l hHf hMf hbin]
          refine ih (hist ++ [l]) _ hassoc ha hr ?_
          rw [binActive_append_other hist l hHf hMf]
          exact hb
        · have hbf : st.isBinary = false := Bool.eq_false_iff.mpr hbin
          by_cases hc : isContentLine l = true
          · exfalso
            have hidx : hist.length < L.length := by
              rw [← heq]; simp
            have hgd : L.getD hist.length [] = l := by
              rw [← heq]; exact getD_append_self hist l ls
            have hsh := hL hist.length hidx (by rw [hgd]; exact hc)
            have hba : binActive hist := by
              obtain ⟨j, hj, hmark, hnh⟩ := hsh
              refine ⟨j, hj, ?_, ?_⟩
              · have hLj : L.getD j [] = hist.getD j [] := by
                  rw [← heq]; exact getD_append_lt hist (l :: ls) j hj
                rw [hLj] at hmark
                exact hmark
              · intro k hk hjk
                have h5 := hnh k hk hjk
                have hLk : L.getD k [] = hist.getD k [] := by
                  rw [← heq]; exact getD_append_lt hist (l :: ls) k hk
                rw [hLk] at h5
                exact h5
            exact hbin (hb.mpr hba)
          · have hcf : isContentLine l = false := Bool.eq_false_iff.mpr hc
            rw [scan_other_clean st l hHf hMf hbf hcf]
            refine ih (hist ++ [l]) _ hassoc ha hr ?_
            rw [binActive_append_other hist l hHf hMf]
            exact hb

/-- C8: for every diff in which each countable content line lies inside a
binary region (after a binary-file marker with no intervening file
header — in particular every diff with only binary-file markers and no
text hunks), the DiffSummarizer reports zero added and zero removed
lines: the binary flag excludes content lines from both tallies until
the next file header resets it. -/
theorem c8_binary_only (text : Str)
    (h : ∀ i, i < (splitOnChar '\n' text).length →
         isContentLine ((splitOnChar '\n' text).getD i []) = true →
         binaryShielded (splitOnChar '\n' text) i) :
    (parseDiff text).lines_added = 0 ∧ (parseDiff text).lines_removed = 0 := by
  have hz := scan_suffix_zero (splitOnChar '\n' text) h (splitOnChar '\n' text)
    [] (DiffScanState.mk [] 0 0 false) (by simp) rfl rfl
    (by simp [binActive, binaryShielded])
  exact hz

/-- C8 witness: a binary-file diff whose payload lines begin with `+`
and `-` still counts zero added and removed lines. -/
theorem c8_witness :
    (∀ i, i < (splitOnChar '\n'
        "diff --git a/i.png b/i.png\nBinary files a/i.png and b/i.png differ\n+x\n-y".data).length →
      isContentLine ((splitOnChar '\n'
        "diff --git a/i.png b/i.png\nBinary files a/i.png and b/i.png differ\n+x\n-y".data).getD i [])
        = true →
      binaryShielded (splitOnChar '\n'
        "diff --git a/i.png b/i.png\nBinary files a/i.png and b/i.png differ\n+x\n-y".data) i) ∧
    (parseDiff "diff --git a/i.png b/i.png\nBinary files a/i.png and b/i.png differ\n+x\n-y".data).lines_added = 0 ∧
    (parseDiff "diff --git a/i.png b/i.png\nBinary files a/i.png and b/i.png differ\n+x\n-y".data).lines_removed = 0 := by
  refine ⟨by decide, ?_⟩
  exact c8_binary_only _ (by decide)

theorem encodeChar_len_ge (c : Char) : 1 ≤ (encodeChar c).length := by
  unfold encodeChar
  split_ifs <;> simp

theorem encodeChars_len_ge (x : Str) : x.length ≤ (encodeChars x).length := by
  induction x with
  | nil => simp [encodeChars]
  | cons c cs ih =>
    have := encodeChar_len_ge c
    simp only [encodeChars, List.length_append, List.length_cons]
    omega

theorem hexVal_encodeDigit :
    ∀ m, m < 16 →
      hexVal (if m < 10 then Char.ofNat (48 + m) else Char.ofNat (87 + m)) = some m := by
  decide

theorem parseStringBodyAux_encode (x : Str) :
    ∀ (fuel : Nat) (rest : Str), x.length + 1 ≤ fuel →
    parseStringBodyAux fuel (encodeChars x ++ '"' :: rest) = some (x, rest) := by
  induction x with
  | nil =>
    intro fuel rest hf
    obtain ⟨f, rfl⟩ : ∃ f, fuel = f + 1 := ⟨fuel - 1, by omega⟩
    simp [encodeChars, parseStringBodyAux]
  | cons c cs ih =>
    intro fuel rest hf
    obtain ⟨f, rfl⟩ : ∃ f, fuel = f + 1 := ⟨fuel - 1, by omega⟩
    have hihf : cs.length + 1 ≤ f := by simp at hf; omega
    have hih := ih f rest hihf
    by_cases h1 : c = '"'
    · subst h1
      simp [encodeChars, encodeChar, parseStringBodyAux, hih]
    · by_cases h2 : c = '\\'
      · subst h2
        simp [encodeChars, encodeChar, parseStringBodyAux, hih]
      · by_cases h3 : c = '\x08'
        · subst h3
          simp [encodeChars, encodeChar, parseStringBodyAux, hih]
        · by_cases h4 : c = '\t'
          · subst h4
            simp [encodeChars, encodeChar, parseStringBodyAux, hih]
          · by_cases h5 : c = '\n'
            · subst h5
              simp [encodeChars, encodeChar, parseStringBodyAux, hih]
            · by_cases h6 : c = '\x0c'
              · subst h6
                simp [encodeChars, encodeChar, parseStringBodyAux, hih]
              · by_cases h7 : c = '\r'
                · subst h7
                  simp [encodeChars, encodeChar, parseStringBodyAux, hih]
                · by_cases h8 : c.toNat < 32
                  · -- the \u00XX escape
                    have hd1 : c.toNat / 16 < 16 := by omega
                    have hd2 : c.toNat % 16 < 16 := by
                      exact Nat.mod_lt _ (by norm_num)
                    have hv1 := hexVal_encodeDigit _ hd1
                    have hv2 := hexVal_encodeDigit _ hd2
                    have hn : ((0 * 16 + 0) * 16 + c.toNat / 16) * 16 + c.toNat % 16
                        = c.toNat := by omega
                    have hn2 : c.toNat / 16 * 16 + c.toNat % 16 = c.toNat := by omega
                    have h0 : hexVal '0' = some 0 := by decide
                    have hs1 : ¬(0xd800 ≤ c.toNat ∧ c.toNat ≤ 0xdbff) := by omega
                    have hs2 : ¬(0xdc00 ≤ c.toNat ∧ c.toNat ≤ 0xdfff) := by omega
                    simp only [encodeChars, encodeChar, if_neg h1, if_neg h2,
                      if_neg h3, if_neg h4, if_neg h5, if_neg h6, if_neg h7,
                      if_pos h8, List.cons_append, List.nil_append]
                    simp only [parseStringBodyAux]
                    simp [h0, hv1, hv2, hn, hn2, hs1, hs2, hih, Char.ofNat_toNat]
                  · -- literal character
                    simp only [encodeChars, encodeChar, if_neg h1, if_neg h2,
                      if_neg h3, if_neg h4, if_neg h5, if_neg h6, if_neg h7,
                      if_neg h8, List.cons_append, List.nil_append]
                    simp [parseStringBodyAux, h1, h2, h8, hih]

theorem parseStringBody_encode (x rest : Str) :
    parseStringBody (encodeChars x ++ '"' :: rest) = some (x, rest) := by
  unfold parseStringBody
  apply parseStringBodyAux_encode
  have := encodeChars_len_ge x
  simp only [List.length_append, List.length_cons]
  omega

theorem parseStringBody_key (k : Str) (hk : encodeChars k = k) (t : Str) :
    parseStringBody (k ++ '"' :: t) = some (k, t) := by
  have h := parseStringBody_encode k t
  rwa [hk] at h

theorem skipWs_nows (c : Char) (h : isJsonWs c = false) (s : Str) :
    skipWs (c :: s) = c :: s := by
  simp [skipWs, h]

theorem parseValue_renderStr (x rest : Str) (fuel : Nat) :
    parseValue (fuel + 1) (renderStr x ++ rest) = some (Json.str x, rest) := by
  have hb := parseStringBody_encode x rest
  have hshape : renderStr x ++ rest = '"' :: (encodeChars x ++ '"' :: rest) := by
    simp [renderStr]
  rw [hshape]
  simp [parseValue, skipWs_nows '"' (by decide), hb]

theorem renderStrs_head_quote (x : Str) (xs : List Str) :
    ∃ t, renderStrs (x :: xs) = '"' :: t := by
  cases xs with
  | nil => exact ⟨encodeChars x ++ ['"'], rfl⟩
  | cons y tl => exact ⟨(encodeChars x ++ ['"']) ++ ',' :: renderStrs (y :: tl), rfl⟩

theorem parseElems_succ (fuel : Nat) (s : Str) :
    parseElems (fuel + 1) s
      = (match parseValue fuel s with
         | none => none
         | some (v, r1) =>
           (match skipWs r1 with
            | ',' :: r2 =>
              (match parseElems fuel r2 with
               | some (vs, rest) => some (v :: vs, rest)
               | none => none)
            | ']' :: r2 => some ([v], r2)
            | _ => none)) := rfl

theorem parseMembers_succ (fuel : Nat) (s : Str) :
    parseMembers (fuel + 1) s
      = (match skipWs s with
         | '"' :: cs =>
           (match parseStringBody cs with
            | none => none
            | some (k, r1) =>
              (match skipWs r1 with
               | ':' :: r2 =>
                 (match parseValue fuel r2 with
                  | none => none
                  | some (v, r3) =>
                    (match skipWs r3 with
                     | ',' :: r4 =>
                       (match parseMembers fuel r4 with
                        | some (ms, rest) => some ((k, v) :: ms, rest)
                        | none => none)
                     | '\x7d' :: r4 => some ([(k, v)], r4)
                     | _ => none))
               | _ => none))
         | _ => none) := rfl

theorem parseElems_renderStrs (l : List Str) :
    ∀ fuel rest, l ≠ [] → l.length + 1 ≤ fuel →
    parseElems fuel (renderStrs l ++ ']' :: rest) = some (l.map Json.str, rest) := by
  induction l with
  | nil => intro fuel rest hne; exact absurd rfl hne
  | cons x xs ih =>
    intro fuel rest _ hfuel
    obtain ⟨f, rfl⟩ : ∃ f, fuel = f + 1 := ⟨fuel - 1, by omega⟩
    obtain ⟨g, rfl⟩ : ∃ g, f = g + 1 := ⟨f - 1, by simp at hfuel; omega⟩
    cases xs with
    | nil =>
      have hv := parseValue_renderStr x (']' :: rest) g
      rw [show renderStrs [x] = renderStr x from rfl, parseElems_succ]
      simp only [hv, skipWs_nows ']' (by decide), List.map_cons, List.map_nil]
    | cons y tl =>
      have hv := parseValue_renderStr x (',' :: (renderStrs (y :: tl) ++ ']' :: rest)) g
      have hrec := ih (g + 1) rest (by simp) (by simp at hfuel ⊢; omega)
      have hshape : renderStrs (x :: y :: tl) ++ ']' :: rest
          = renderStr x ++ (',' :: (renderStrs (y :: tl) ++ ']' :: rest)) := by
        simp only [renderStrs, List.append_assoc, List.cons_append]
      rw [hshape, parseElems_succ]
      simp only [hv, skipWs_nows ',' (by decide), hrec, List.map_cons]

theorem parseValue_issuesArr (l : List Str) :
    ∀ fuel rest, l.length + 1 ≤ fuel →
    parseValue (fuel + 1) ('[' :: (renderStrs l ++ ']' :: rest))
      = some (Json.arr (l.map Json.str), rest) := by
  intro fuel rest hfuel
  cases l with
  | nil =>
    simp [parseValue, renderStrs, skipWs_nows '[' (by decide),
      skipWs_nows ']' (by decide)]
  | cons x xs =>
    obtain ⟨t, ht⟩ := renderStrs_head_quote x xs
    have he := parseElems_renderStrs (x :: xs) fuel rest (by simp) hfuel
    rw [ht] at he
    rw [List.cons_append] at he
    rw [ht, List.cons_append]
    simp [parseValue, skipWs_nows '[' (by decide), skipWs_nows '"' (by decide), he]

theorem parseMembers_summary (summary : Str) :
    ∀ fuel rest, 1 ≤ fuel →
    parseMembers (fuel + 1)
      ("\"summary\":".data ++ renderStr summary ++ '\x7d' :: rest)
      = some ([("summary".data, Json.str summary)], rest) := by
  intro fuel rest hfuel
  obtain ⟨g, rfl⟩ : ∃ g, fuel = g + 1 := ⟨fuel - 1, by omega⟩
  have hshape : "\"summary\":".data ++ renderStr summary ++ '\x7d' :: rest
      = '"' :: ("summary".data ++ '"' :: ':' :: (renderStr summary ++ '\x7d' :: rest)) := by
    simp only [List.append_assoc]
    try rfl
  rw [hshape]
  have hkey := parseStringBody_key "summary".data rfl
    (':' :: (renderStr summary ++ '\x7d' :: rest))
  have hv := parseValue_renderStr summary ('\x7d' :: rest) g
  rw [parseMembers_succ]
  simp only [skipWs_nows '"' (by decide), hkey,
    skipWs_nows ':' (by decide), hv, skipWs_nows '\x7d' (by decide)]

theorem parseMembers_issues_summary (issues : List Str) (summary : Str) :
    ∀ fuel rest, issues.length + 2 ≤ fuel →
    parseMembers (fuel + 1)
      ("\"issues\":[".data ++ renderStrs issues ++ "],\"summary\":".data ++
        renderStr summary ++ '\x7d' :: rest)
      = some ([("issues".data, Json.arr (issues.map Json.str)),
               ("summary".data, Json.str summary)], rest) := by
  intro fuel rest hfuel
  obtain ⟨g, rfl⟩ : ∃ g, fuel = g + 1 := ⟨fuel - 1, by omega⟩
  have hshape : "\"issues\":[".data ++ renderStrs issues ++ "],\"summary\":".data ++
        renderStr summary ++ '\x7d' :: rest
      = '"' :: ("issues".data ++ '"' :: ':' :: ('[' :: (renderStrs issues ++
          ']' :: (',' :: ("\"summary\":".data ++ renderStr summary ++ '\x7d' :: rest))))) := by
    simp only [List.append_assoc, List.cons_append]
    try rfl
  rw [hshape]
  have hkey := parseStringBody_key "issues".data rfl
    (':' :: ('[' :: (renderStrs issues ++
      ']' :: (',' :: ("\"summary\":".data ++ renderStr summary ++ '\x7d' :: rest)))))
  have hv := parseValue_issuesArr issues g
    (',' :: ("\"summary\":".data ++ renderStr summary ++ '\x7d' :: rest))
    (by omega)
  have hrec := parseMembers_summary summary g rest (by omega)
  rw [parseMembers_succ]
  simp only [skipWs_nows '"' (by decide), hkey,
    skipWs_nows ':' (by decide), hv, skipWs_nows ',' (by decide), hrec]

theorem parseMembers_decision (d : Decision) :
    ∀ fuel rest, d.issues.length + 3 ≤ fuel →
    parseMembers (fuel + 1) (renderInner d ++ '\x7d' :: rest)
      = some ([("risk".data, Json.str d.risk),
               ("issues".data, Json.arr (d.issues.map Json.str)),
               ("summary".data, Json.str d.summary)], rest) := by
  intro fuel rest hfuel
  obtain ⟨g, rfl⟩ : ∃ g, fuel = g + 1 := ⟨fuel - 1, by omega⟩
  have hshape : renderInner d ++ '\x7d' :: rest
      = '"' :: ("risk".data ++ '"' :: ':' :: (renderStr d.risk ++
          (',' :: ("\"issues\":[".data ++ renderStrs d.issues ++ "],\"summary\":".data ++
            renderStr d.summary ++ '\x7d' :: rest)))) := by
    simp only [renderInner, List.append_assoc, List.cons_append]
    try rfl
  rw [hshape]
  have hkey := parseStringBody_key "risk".data rfl
    (':' :: (renderStr d.risk ++
      (',' :: ("\"issues\":[".data ++ renderStrs d.issues ++ "],\"summary\":".data ++
        renderStr d.summary ++ '\x7d' :: rest))))
  have hv := parseValue_renderStr d.risk
    (',' :: ("\"issues\":[".data ++ renderStrs d.issues ++ "],\"summary\":".data ++
      renderStr d.summary ++ '\x7d' :: rest)) g
  have hrec := parseMembers_issues_summary d.issues d.summary g rest (by omega)
  rw [parseMembers_succ]
  simp only [skipWs_nows '"' (by decide), hkey,
    skipWs_nows ':' (by decide), hv, skipWs_nows ',' (by decide), hrec]

theorem renderStrs_len_ge (l : List Str) : l.length ≤ (renderStrs l).length := by
  induction l with
  | nil => simp [renderStrs]
  | cons x xs ih =>
    cases xs with
    | nil =>
      rw [show renderStrs [x] = renderStr x from rfl]
      simp only [renderStr, List.length_cons, List.length_append, List.length_nil]
      omega
    | cons y tl =>
      simp only [renderStrs, List.length_append, List.length_cons] at ih ⊢
      omega

theorem renderDecision_len (d : Decision) :
    d.issues.length + 5 ≤ (renderDecision d).length := by
  have h1 := renderStrs_len_ge d.issues
  have l1 : ("\"risk\":".data : Str).length = 7 := rfl
  have l2 : (",\"issues\":[".data : Str).length = 11 := rfl
  have l3 : ("],\"summary\":".data : Str).length = 12 := rfl
  simp only [renderDecision, renderInner, List.length_append, List.length_cons,
    l1, l2, l3]
  omega

theorem parseValue_obj_members (fuel : Nat) (t : Str) :
    parseValue (fuel + 1) ('\x7b' :: '"' :: t)
      = (match parseMembers fuel ('"' :: t) with
         | some (ms, rest) => some (Json.obj ms, rest)
         | none => none) := rfl

theorem parseValue_decision (d : Decision) :
    ∀ fuel rest, d.issues.length + 4 ≤ fuel →
    parseValue (fuel + 1) (renderDecision d ++ rest)
      = some (decisionJson d, rest) := by
  intro fuel rest hfuel
  obtain ⟨g, rfl⟩ : ∃ g, fuel = g + 1 := ⟨fuel - 1, by omega⟩
  have hshape : renderDecision d ++ rest
      = '\x7b' :: (renderInner d ++ '\x7d' :: rest) := by
    simp [renderDecision, List.append_assoc]
  rw [hshape]
  have hm := parseMembers_decision d g rest (by omega)
  have hshape2 : renderInner d ++ '\x7d' :: rest
      = '"' :: ("risk\":".data ++ (renderStr d.risk ++
          (",\"issues\":[".data ++ (renderStrs d.issues ++
            ("],\"summary\":".data ++ (renderStr d.summary ++ '\x7d' :: rest)))))) := by
    simp only [renderInner, List.append_assoc, List.cons_append]
    try rfl
  rw [hshape2] at hm ⊢
  rw [parseValue_obj_members, hm]
  rfl

theorem jsonParse_renderDecision (d : Decision) :
    jsonParse (renderDecision d) = some (decisionJson d) := by
  have hlen := renderDecision_len d
  have hv := parseValue_decision d ((renderDecision d).length) [] (by omega)
  rw [List.append_nil] at hv
  unfold jsonParse
  rw [hv]
  simp [skipWs]

theorem trimSeq_shape (a z : Char) (mid : Str)
    (ha : isJsWs a = false) (hz : isJsWs z = false) :
    trimSeq ((a :: mid) ++ [z]) = (a :: mid) ++ [z] := by
  unfold trimSeq
  rw [List.cons_append]
  rw [List.dropWhile_cons]
  simp only [ha, Bool.false_eq_true, if_false]
  have hrev : (a :: (mid ++ [z])).reverse = z :: (a :: mid).reverse.reverse.reverse := by
    simp
  rw [show (a :: (mid ++ [z])).reverse = z :: (mid.reverse ++ [a]) from by simp]
  rw [List.dropWhile_cons]
  simp only [hz, Bool.false_eq_true, if_false]
  simp

theorem firstIdx_head (c : Char) (t : Str) : firstIdxChar c (c :: t) = some 0 := by
  simp [firstIdxChar, findSeq, startsW]

theorem lastIdx_last (c : Char) (t : Str) :
    lastIdxChar c (t ++ [c]) = some t.length := by
  unfold lastIdxChar
  rw [show (t ++ [c]).reverse = c :: t.reverse from by simp]
  simp [findSeq, startsW, List.length_append]

theorem jsSubstring_full (s : Str) : jsSubstring s 0 s.length = s := by
  simp [jsSubstring]

theorem cleanPipeline_renderDecision (d : Decision)
    (hthink : stripThink (renderDecision d) = renderDecision d)
    (hfence : repAll fence3 [] (repAll fenceJson [] (renderDecision d))
      = renderDecision d) :
    cleanPipeline (renderDecision d) = renderDecision d := by
  have htrim : trimSeq (renderDecision d) = renderDecision d := by
    rw [show renderDecision d = ('\x7b' :: renderInner d) ++ ['\x7d'] from rfl]
    exact trimSeq_shape '\x7b' '\x7d' (renderInner d) (by decide) (by decide)
  have hfirst : firstIdxChar '\x7b' (renderDecision d) = some 0 := by
    rw [show renderDecision d = '\x7b' :: (renderInner d ++ ['\x7d']) from by
      simp [renderDecision]]
    exact firstIdx_head _ _
  have hlast : lastIdxChar '\x7d' (renderDecision d)
      = some (('\x7b' :: renderInner d).length) := by
    rw [show renderDecision d = ('\x7b' :: renderInner d) ++ ['\x7d'] from rfl]
    exact lastIdx_last _ _
  have hlen : ('\x7b' :: renderInner d).length + 1 = (renderDecision d).length := by
    simp [renderDecision]
  simp only [cleanPipeline, hthink, hfence, htrim, hfirst, hlast]
  rw [hlen, jsSubstring_full]

theorem jsToString_map_str (l : List Str) :
    (l.map Json.str).map jsToString = l := by
  rw [List.map_map]
  have h : jsToString ∘ Json.str = id := funext (fun s => rfl)
  rw [h, List.map_id]

/-- C5 (amended): for every Decision in canonical shape (risk one of the
three upper-case enum values) whose exact JSON serialization is left
unchanged by the reasoning-strip and fence-strip text transforms (in
particular, whose strings contain no markdown fence token and no paired
think markers), feeding that serialization to the ResponseNormalizer
returns a Decision equal to the input.  Serializations the strip steps
do alter are mangled before parsing; see the counterexample. -/
theorem c5_roundtrip (d : Decision)
    (hcanon : d.risk ∈ validRisks)
    (hthink : stripThink (renderDecision d) = renderDecision d)
    (hfence : repAll fence3 [] (repAll fenceJson [] (renderDecision d))
      = renderDecision d) :
    normalizeResponse (renderDecision d) = Except.ok d := by
  obtain ⟨risk, issues, summary⟩ := d
  have hclean := cleanPipeline_renderDecision ⟨risk, issues, summary⟩ hthink hfence
  have hparse := jsonParse_renderDecision ⟨risk, issues, summary⟩
  have hg1 : jsGet (Json.obj [("risk".data, Json.str risk),
      ("issues".data, Json.arr (issues.map Json.str)),
      ("summary".data, Json.str summary)]) "risk".data = some (Json.str risk) := rfl
  have hg2 : jsGet (Json.obj [("risk".data, Json.str risk),
      ("issues".data, Json.arr (issues.map Json.str)),
      ("summary".data, Json.str summary)]) "issues".data
      = some (Json.arr (issues.map Json.str)) := rfl
  have hg3 : jsGet (Json.obj [("risk".data, Json.str risk),
      ("issues".data, Json.arr (issues.map Json.str)),
      ("summary".data, Json.str summary)]) "summary".data
      = some (Json.str summary) := rfl
  have hcomp : List.map (jsToString ∘ Json.str) issues = issues := by
    rw [show (jsToString ∘ Json.str) = id from funext fun s => rfl, List.map_id]
  simp only [validRisks, List.mem_cons, List.not_mem_nil, or_false] at hcanon
  rcases hcanon with hr | hr | hr
  · cases hr
    have hup : upperSeq "LOW".data = "LOW".data := rfl
    simp [normalizeResponse, hclean, hparse, decisionJson, hg1, hg2, hg3,
      jsToString_map_str, hcomp, falsyOpt, jsFalsy, isStringOpt, validRisks, hup]
  · cases hr
    have hup : upperSeq "MEDIUM".data = "MEDIUM".data := rfl
    simp [normalizeResponse, hclean, hparse, decisionJson, hg1, hg2, hg3,
      jsToString_map_str, hcomp, falsyOpt, jsFalsy, isStringOpt, validRisks, hup]
  · cases hr
    have hup : upperSeq "HIGH".data = "HIGH".data := rfl
    simp [normalizeResponse, hclean, hparse, decisionJson, hg1, hg2, hg3,
      jsToString_map_str, hcomp, falsyOpt, jsFalsy, isStringOpt, validRisks, hup]

/-- C5 witness: a canonical Decision with an issue and a summary whose
serialization the strip steps leave alone round-trips exactly. -/
theorem c5_witness :
    ((Decision.mk "LOW".data ["a".data] "ok".data).risk ∈ validRisks) ∧
    stripThink (renderDecision (Decision.mk "LOW".data ["a".data] "ok".data))
      = renderDecision (Decision.mk "LOW".data ["a".data] "ok".data) ∧
    repAll fence3 [] (repAll fenceJson []
      (renderDecision (Decision.mk "LOW".data ["a".data] "ok".data)))
      = renderDecision (Decision.mk "LOW".data ["a".data] "ok".data) ∧
    normalizeResponse (renderDecision (Decision.mk "LOW".data ["a".data] "ok".data))
      = Except.ok (Decision.mk "LOW".data ["a".data] "ok".data) := by
  refine ⟨by decide, by decide, by decide, ?_⟩
  exact c5_roundtrip _ (by decide) (by decide) (by decide)

/-- C5 counterexample: a canonical Decision whose summary is the markdown
fence token does not round-trip — the fence-strip step deletes the token
from the serialized text, so the normalizer returns a Decision with an
empty summary instead of the input — refuting the claim for arbitrary
canonical Decisions. -/
theorem c5_counterexample :
    ((Decision.mk "LOW".data [] "```".data).risk ∈ validRisks) ∧
    renderDecision (Decision.mk "LOW".data [] "```".data)
      = "\x7b\"risk\":\"LOW\",\"issues\":[],\"summary\":\"```\"\x7d".data ∧
    normalizeResponse (renderDecision (Decision.mk "LOW".data [] "```".data))
      = Except.ok (Decision.mk "LOW".data [] []) ∧
    Decision.mk "LOW".data [] ([] : Str) ≠ Decision.mk "LOW".data [] "```".data :=
  ⟨by decide, rfl, rfl, by decide⟩

end GitGandalf
